import Mathlib

/-!
A shallow embedding of `consensus/src/dag/dag_driver.rs` (the DAG driver of a
DAG-based BFT consensus protocol).  The driver's methods (`new`, `add_node`,
`enter_new_round`, `broadcast_node`, and the `RpcHandler::process` impl) are
modelled as explicit state-passing functions that additionally emit a trace of
observable effects (`Event`): journal writes, payload pulls, task spawns, abort
calls, fetch requests and order-rule notifications.  Rust panics
(`expect`/`panic!`) are modelled by returning `none`.  Machine integers
(`Round = u64`) are modelled as `Nat`; the source only uses `saturating_sub`,
`+ 1` (far from overflow in any reachable configuration) and the unguarded
`new_round - 1`, which Nat subtraction models as its saturating counterpart.

Collaborators that are repository code but not part of the given source file
(the DAG store, the persistent journal semantics, the reliable-broadcast
client, the verifier) are modelled from the specification's description of
their interface; each such definition carries a `Modelled from the spec`
comment.
-/

/-- A block payload; the driver treats payloads opaquely, so a payload is
modelled as a list of transaction identifiers. -/
abbrev Payload := List Nat

/-- `NodeMetadata { epoch, round, author, digest }`: unique identifier of a
node.  Authors are modelled as `Nat` ids; the digest is carried as data. -/
structure NodeMetadata where
  epoch : Nat
  round : Nat
  author : Nat
  digest : Nat
deriving DecidableEq, Repr

/-- An uncertified `Node { epoch, round, author, timestamp, payload,
strong_links (= parents), extensions }`.  `extensions` is always
`Extensions::empty()` in the driver and is omitted.  The digest that
`Node::new` computes by hashing the body is carried as a data field, filled in
by the environment's hash function when the driver creates a node. -/
structure Node where
  epoch : Nat
  round : Nat
  author : Nat
  timestamp : Nat
  payload : Payload
  parents : List NodeMetadata
  digest : Nat
deriving DecidableEq, Repr

/-- `node.metadata()`. -/
def Node.metadataOf (n : Node) : NodeMetadata :=
  { epoch := n.epoch, round := n.round, author := n.author, digest := n.digest }

/-- A `CertifiedNode`: a node plus its aggregated quorum signature (modelled
as an opaque number). -/
structure CertifiedNode where
  node : Node
  signatures : Nat
deriving DecidableEq, Repr

/-- `CertifiedAck { epoch }`, the RPC handler's response. -/
structure CertifiedAck where
  epoch : Nat
deriving DecidableEq, Repr

/-- `PayloadFilter`.  Modelled from the spec: the driver builds either
`PayloadFilter::Empty` or a filter "built from the payloads of all nodes
reachable from strong links"; the non-`Empty` constructor records exactly the
payload collection the driver passes to `PayloadFilter::from`. -/
inductive PayloadFilter where
  | Empty : PayloadFilter
  | ofPayloads (payloads : List Payload) : PayloadFilter
deriving DecidableEq, Repr

/-- Errors of the spec-modelled DAG store `add_node` (spec section 4.1). -/
inductive DagError where
  | duplicateNode
  | invalidEpoch
  | unknownParents
deriving DecidableEq, Repr

/-- `DagDriverError` plus propagated DAG-store errors (the Rust code
propagates the latter through `anyhow`). -/
inductive DriverError where
  | missingParents
  | dagError (e : DagError)
deriving DecidableEq, Repr

/-- Modelled from the spec: `Verifier.quorum_check(authors_with_stake) ->
bool, len() -> usize` (spec section 6).  The quorum test over a set of authors
is an abstract boolean function supplied by the environment. -/
structure Verifier where
  quorum_check : List Nat → Bool
  len : Nat

/-- Modelled from the spec: the DAG store (spec section 4.1), a mapping
`(round, author) → CertifiedNode` held as a list, with the store's epoch. -/
structure Dag where
  epoch : Nat
  nodes : List CertifiedNode
deriving DecidableEq, Repr

/-- Lookup by metadata (membership is by metadata digest, spec 4.1). -/
def Dag.findByMeta (d : Dag) (m : NodeMetadata) : Option CertifiedNode :=
  d.nodes.find? (fun c => c.node.metadataOf == m)

/-- `exists(meta) -> bool`. -/
def Dag.existsMeta (d : Dag) (m : NodeMetadata) : Bool :=
  (d.findByMeta m).isSome

/-- `all_exists(set_of_meta) -> bool`: conjunctive membership. -/
def Dag.all_exists (d : Dag) (ms : List NodeMetadata) : Bool :=
  ms.all d.existsMeta

/-- The certified nodes present at round `r`. -/
def Dag.nodesAt (d : Dag) (r : Nat) : List CertifiedNode :=
  d.nodes.filter (fun c => c.node.round == r)

/-- `highest_round()`: max round with any node present, `0` when empty. -/
def Dag.highest_round (d : Dag) : Nat :=
  d.nodes.foldr (fun c a => max c.node.round a) 0

/-- Modelled from the spec: `add_node` of the DAG store fails with
`DuplicateNode` if `(round, author)` is already present, `InvalidEpoch` if the
epoch mismatches, `UnknownParents` if any strong link is absent; a failed add
leaves the state unchanged (spec 4.1). -/
def Dag.addNode (d : Dag) (cn : CertifiedNode) : Except DagError Dag :=
  if cn.node.epoch != d.epoch then .error .invalidEpoch
  else if (d.nodesAt cn.node.round).any (fun c => c.node.author == cn.node.author) then
    .error .duplicateNode
  else if !(d.all_exists cn.node.parents) then .error .unknownParents
  else .ok { d with nodes := cn :: d.nodes }

/-- Modelled from the spec: `get_strong_links_for_round(r, verifier)` returns
the metadata of the nodes at round `r`, deterministically ordered by ascending
author id, when their authors satisfy the verifier's quorum check; else
`none` (spec 4.1). -/
def Dag.get_strong_links_for_round (d : Dag) (r : Nat) (v : Verifier) :
    Option (List NodeMetadata) :=
  let metas := ((d.nodesAt r).map (fun c => c.node.metadataOf)).insertionSort
    (fun a b => a.author ≤ b.author)
  if v.quorum_check (metas.map (fun m => m.author)) then some metas else none

/-- Fuel-driven worklist traversal implementing the spec-modelled
`reachable`: backward BFS over strong links from a frontier of metadata,
visiting each node at most once and stopping below the lower round bound. -/
def Dag.reachableGo (d : Dag) (lb : Nat) :
    Nat → List NodeMetadata → List NodeMetadata → List CertifiedNode
  | 0, _, _ => []
  | _ + 1, [], _ => []
  | fuel + 1, m :: rest, visited =>
    if visited.contains m then d.reachableGo lb fuel rest visited
    else
      match d.findByMeta m with
      | none => d.reachableGo lb fuel rest (m :: visited)
      | some c =>
        if lb ≤ c.node.round then
          c :: d.reachableGo lb fuel (rest ++ c.node.parents) (m :: visited)
        else d.reachableGo lb fuel rest (m :: visited)

/-- Modelled from the spec: `reachable(roots, lower_round_bound, predicate)`,
with the constantly-true predicate the driver passes: all nodes reachable from
`roots` backward over strong links, stopping below `lb` (spec 4.1). -/
def Dag.reachable (d : Dag) (roots : List NodeMetadata) (lb : Nat) :
    List CertifiedNode :=
  d.reachableGo lb
    (roots.length + d.nodes.foldr (fun c a => c.node.parents.length + a) 0 +
      d.nodes.length + 1)
    roots []

/-- The environment of one driver step: the collaborators the driver consults.
`pull_payload` models the `PayloadClient` (arguments: deadline seconds, max
count, max bytes, filter; the remaining Rust arguments are the constants
`Box::pin(async {})`, `false`, `0`, `0.0` and are omitted); `digest` models
the hash `Node::new` computes over the node body. -/
structure Env where
  verifier : Verifier
  epoch : Nat
  anchor_round : Nat
  dag_window : Nat
  pull_payload : Nat → Nat → Nat → PayloadFilter → Except Nat Payload
  now_us : Nat
  digest : Nat → Nat → Nat → Nat → Nat

/-- Observable effects of the driver, in program order.  `spawnRb id n` is the
`tokio::spawn` of the abortable two-phase reliable-broadcast chain for node
`n` under abort handle `id`; every network send carrying `n`'s metadata
happens inside that spawned task, hence after its `spawnRb` event.
`rbOuterComplete n` is an environment event: the completion of `n`'s
signature-collection (outer) broadcast phase. -/
inductive Event where
  | fetchRequest (cn : CertifiedNode)
  | prefetch (p : Payload) (ts : Nat)
  | enterNewRound (r : Nat)
  | payloadPull (secs maxCount maxBytes : Nat) (filter : PayloadFilter)
  | setCurrentRound (r : Nat)
  | savePendingNode (n : Node)
  | spawnRb (id : Nat) (n : Node)
  | abortRb (id : Nat)
  | orderRuleNewNode (m : NodeMetadata)
  | rbOuterComplete (n : Node)
deriving DecidableEq, Repr

/-- The driver's mutable fields that the modelled claims observe:
`current_round`, the shared DAG, and `rb_abort_handle` (abort handles carry
model identities drawn from the fresh counter `next_handle`). -/
structure DagDriver where
  author : Nat
  current_round : Nat
  dag : Dag
  rb_abort_handle : Option Nat
  next_handle : Nat
deriving DecidableEq, Repr

/-- `highest_strong_links_round`: the expression
`dag.get_strong_links_for_round(highest_round, verifier).map_or_else(||
highest_round.saturating_sub(1), |_| highest_round)` that both `new` and
`add_node` compute. -/
def highestStrongLinksRound (d : Dag) (v : Verifier) : Nat :=
  match d.get_strong_links_for_round d.highest_round v with
  | some _ => d.highest_round
  | none => d.highest_round - 1

/-- `DagDriver::broadcast_node`: build the chained two-phase RB future, spawn
it as one `Abortable` task under a fresh handle, replace `rb_abort_handle`,
and abort the previous handle if one existed (in this order, as in the
source: spawn at line 232, replace-and-abort at lines 233-235). -/
def DagDriver.broadcast_node (s : DagDriver) (node : Node) :
    DagDriver × List Event :=
  ({ s with rb_abort_handle := some s.next_handle,
            next_handle := s.next_handle + 1 },
   match s.rb_abort_handle with
   | some prev => [.spawnRb s.next_handle node, .abortRb prev]
   | none => [.spawnRb s.next_handle node])

/-- The payload filter `enter_new_round` constructs: `PayloadFilter::Empty`
when the strong-link set is empty, else the payloads of all nodes reachable
from the strong links down to
`highest_commit_round.saturating_sub(DAG_WINDOW)`. -/
def payloadFilterFor (env : Env) (d : Dag) (strong_links : List NodeMetadata) :
    PayloadFilter :=
  if strong_links.isEmpty then PayloadFilter.Empty
  else
    PayloadFilter.ofPayloads
      ((d.reachable strong_links (env.anchor_round - env.dag_window)).map
        (fun c => c.node.payload))

/-- The `Node::new(epoch, current_round, author, timestamp, payload,
strong_links, Extensions::empty())` call of `enter_new_round`. -/
def pendingNodeFor (env : Env) (s : DagDriver) (new_round : Nat)
    (payload : Payload) (strong_links : List NodeMetadata) : Node :=
  { epoch := env.epoch, round := new_round, author := s.author,
    timestamp := env.now_us, payload := payload, parents := strong_links,
    digest := env.digest env.epoch new_round s.author env.now_us }

/-- `DagDriver::enter_new_round(new_round)`: read the strong links of
`new_round - 1` (its `.expect` panic is `none`), build the payload filter,
pull a payload under the budget `(1 s, 1000 txns, 10 * 1024 * 1024 bytes)`
(the source's `panic!` on pull failure is `none`), set
`current_round = new_round`, assemble the node, save it as the pending node,
and broadcast it. -/
def DagDriver.enter_new_round (env : Env) (s : DagDriver) (new_round : Nat) :
    Option (DagDriver × List Event) :=
  match s.dag.get_strong_links_for_round (new_round - 1) env.verifier with
  | none => none
  | some strong_links =>
    match env.pull_payload 1 1000 10485760 (payloadFilterFor env s.dag strong_links) with
    | .error _ => none
    | .ok payload =>
      some ((({ s with current_round := new_round }).broadcast_node
              (pendingNodeFor env s new_round payload strong_links)).1,
        .enterNewRound new_round ::
        .payloadPull 1 1000 10485760 (payloadFilterFor env s.dag strong_links) ::
        .setCurrentRound new_round ::
        .savePendingNode (pendingNodeFor env s new_round payload strong_links) ::
        (({ s with current_round := new_round }).broadcast_node
          (pendingNodeFor env s new_round payload strong_links)).2)

/-- `DagDriver::add_node(node)`: under the DAG write lock, check the parents
(enqueue a fetch request and fail with `MissingParents` if any is absent),
prefetch the payload, insert into the store (errors propagate), recompute the
highest strong-links round, and enter a new round when
`current_round <= highest_strong_links_round`. -/
def DagDriver.add_node (env : Env) (s : DagDriver) (cn : CertifiedNode) :
    Option (Except DriverError Unit × DagDriver × List Event) :=
  if s.dag.all_exists cn.node.parents then
    match s.dag.addNode cn with
    | .error e =>
      some (.error (.dagError e), s, [.prefetch cn.node.payload cn.node.timestamp])
    | .ok d2 =>
      if s.current_round ≤ highestStrongLinksRound d2 env.verifier then
        match ({ s with dag := d2 }).enter_new_round env
            (highestStrongLinksRound d2 env.verifier + 1) with
        | none => none
        | some (s2, ev2) =>
          some (.ok (), s2, .prefetch cn.node.payload cn.node.timestamp :: ev2)
      else
        some (.ok (), { s with dag := d2 },
          [.prefetch cn.node.payload cn.node.timestamp])
  else some (.error .missingParents, s, [.fetchRequest cn])

/-- `DagDriver::new`: read the pending node, compute the highest strong-links
round `q`, initialise `current_round = q`; if the pending node's round is
`q + 1`, resume by broadcasting it (no payload pull, no journal write), else
enter round `q + 1` synchronously (`block_on`).  The `.expect` on the journal
read is modelled by taking the already-read `pending_node` as input. -/
def DagDriver.new (env : Env) (author : Nat) (dag : Dag)
    (pending_node : Option Node) : Option (DagDriver × List Event) :=
  match pending_node.filter
      (fun node => node.round == highestStrongLinksRound dag env.verifier + 1) with
  | some node =>
    some (({ author := author, current_round := node.round, dag := dag,
             rb_abort_handle := none, next_handle := 0 } : DagDriver).broadcast_node
            node)
  | none =>
    ({ author := author,
       current_round := highestStrongLinksRound dag env.verifier, dag := dag,
       rb_abort_handle := none, next_handle := 0 } : DagDriver).enter_new_round
      env (highestStrongLinksRound dag env.verifier + 1)

/-- `RpcHandler::process` for the driver: with the DAG read lock, return
`CertifiedAck { epoch }` immediately if the node already exists; else run
`add_node`, notify the order rule on success, and return the ack; errors
propagate. -/
def DagDriver.process (env : Env) (s : DagDriver) (cn : CertifiedNode) :
    Option (Except DriverError CertifiedAck × DagDriver × List Event) :=
  let epoch := cn.node.epoch
  if s.dag.existsMeta cn.node.metadataOf then some (.ok ⟨epoch⟩, s, [])
  else
    match s.add_node env cn with
    | none => none
    | some (.ok _, s2, ev) =>
      some (.ok ⟨epoch⟩, s2, ev ++ [.orderRuleNewNode cn.node.metadataOf])
    | some (.error e, s2, ev) => some (.error e, s2, ev)

/-- The event trace of a driver step returning `DagDriver × List Event`
(empty when the step panicked). -/
def traceOfStep : Option (DagDriver × List Event) → List Event
  | none => []
  | some (_, ev) => ev

/-- The event trace of a driver call returning a result alongside the state
(empty when the call panicked). -/
def traceOfCall {α : Type} : Option (α × DagDriver × List Event) → List Event
  | none => []
  | some (_, _, ev) => ev

/-- Index of the first event satisfying `p`. -/
def idxOfEvent (p : Event → Bool) : List Event → Option Nat
  | [] => none
  | e :: tr => if p e then some 0 else (idxOfEvent p tr).map (· + 1)

/-- `occursBeforeB p q tr`: the first event satisfying `p` occurs strictly
before the first event satisfying `q`. -/
def occursBeforeB (p q : Event → Bool) (tr : List Event) : Bool :=
  match idxOfEvent p tr, idxOfEvent q tr with
  | some i, some j => i < j
  | _, _ => false

/-- Tests on events used to state ordering properties. -/
def isSetCurrentRound : Event → Bool
  | .setCurrentRound _ => true
  | _ => false

def isSavePending : Event → Bool
  | .savePendingNode _ => true
  | _ => false

def isSpawnRb : Event → Bool
  | .spawnRb _ _ => true
  | _ => false

def isPayloadPull : Event → Bool
  | .payloadPull _ _ _ _ => true
  | _ => false

/-- Modelled from the spec: the persistent journal's single pending-node slot
(spec 4.2 and section 3 lifecycle: the slot is overwritten by
`save_pending_node` and "cleared when its RB outer phase completes"; the
clearing code is not part of `dag_driver.rs`).  `journalStep` folds one event
into the slot. -/
def journalStep (slot : Option Node) : Event → Option Node
  | .savePendingNode n => some n
  | .rbOuterComplete n => if slot == some n then none else slot
  | _ => slot

/-- The pending-node slot after a trace of events, from initial slot
`init`. -/
def runJournal (init : Option Node) (tr : List Event) : Option Node :=
  tr.foldl journalStep init

/-- `id` was spawned as an RB task in the trace. -/
def spawnedIn (tr : List Event) (id : Nat) : Prop :=
  ∃ n, Event.spawnRb id n ∈ tr

/-- `id` was aborted in the trace. -/
def abortedIn (tr : List Event) (id : Nat) : Prop :=
  Event.abortRb id ∈ tr

/-- `id` is a live (in-flight) RB task: spawned and never aborted. -/
def liveHandle (tr : List Event) (id : Nat) : Prop :=
  spawnedIn tr id ∧ ¬ abortedIn tr id

/-- The handle bookkeeping invariant tying the driver state to the trace: the
live RB handles are exactly the one stored in `rb_abort_handle`, and every
handle id that ever appeared is below the fresh counter. -/
def HandleInv (s : DagDriver) (tr : List Event) : Prop :=
  (∀ id, liveHandle tr id ↔ s.rb_abort_handle = some id) ∧
  (∀ id, spawnedIn tr id → id < s.next_handle) ∧
  (∀ id, abortedIn tr id → id < s.next_handle)

/-! ### Concrete fixtures used by witnesses and counterexamples -/

/-- A quorum rule for concrete instances: any nonempty author set is a
quorum. -/
def verifierW : Verifier :=
  { quorum_check := fun l => !l.isEmpty, len := 4 }

/-- A concrete environment whose payload client always succeeds with the
empty payload. -/
def envW : Env :=
  { verifier := verifierW, epoch := 0, anchor_round := 0, dag_window := 0,
    pull_payload := fun _ _ _ _ => .ok [], now_us := 7,
    digest := fun e r a t => ((e + r) + a) + t }

/-- `envW` with a payload client that always fails. -/
def envPullFail : Env :=
  { envW with pull_payload := fun _ _ _ _ => .error 1 }

/-- A genesis-like round-0 node by author 0. -/
def nodeW0 : Node :=
  { epoch := 0, round := 0, author := 0, timestamp := 0, payload := [],
    parents := [], digest := 0 }

/-- `nodeW0` certified. -/
def certW0 : CertifiedNode := { node := nodeW0, signatures := 0 }

/-- A DAG holding only the genesis-like node. -/
def dagW : Dag := { epoch := 0, nodes := [certW0] }

/-- The empty DAG at epoch 0. -/
def dagEmpty : Dag := { epoch := 0, nodes := [] }

/-- A driver state over `dagW` with no RB in flight, at round 0. -/
def stateW : DagDriver :=
  { author := 1, current_round := 0, dag := dagW, rb_abort_handle := none,
    next_handle := 0 }

/-- A round-1 node by author 2 whose single strong link is the genesis-like
node; used as a pending node and as an ingested certified node. -/
def nodeW1 : Node :=
  { epoch := 0, round := 1, author := 2, timestamp := 3, payload := [5],
    parents := [nodeW0.metadataOf], digest := 11 }

/-- `nodeW1` certified. -/
def certW1 : CertifiedNode := { node := nodeW1, signatures := 0 }

/-- A round-2 node whose parent is absent from `dagW`. -/
def nodeOrphan : Node :=
  { epoch := 0, round := 2, author := 3, timestamp := 4, payload := [],
    parents := [{ epoch := 0, round := 1, author := 9, digest := 77 }],
    digest := 13 }

/-- `nodeOrphan` certified. -/
def certOrphan : CertifiedNode := { node := nodeOrphan, signatures := 0 }

/-- The node `enter_new_round envW stateW 1` creates and journals. -/
def nodePend1 : Node :=
  { epoch := 0, round := 1, author := 1, timestamp := 7, payload := [],
    parents := [nodeW0.metadataOf], digest := 9 }

/-- The driver state after `enter_new_round envW stateW 1`. -/
def stateAfterEnter1 : DagDriver :=
  { author := 1, current_round := 1, dag := dagW, rb_abort_handle := some 0,
    next_handle := 1 }

/-- The trace of `enter_new_round envW stateW 1`. -/
def traceEnter1 : List Event :=
  [.enterNewRound 1,
   .payloadPull 1 1000 10485760 (.ofPayloads [[]]),
   .setCurrentRound 1,
   .savePendingNode nodePend1,
   .spawnRb 0 nodePend1]

/-- `dagW` after inserting `certW1`. -/
def dagAdd1 : Dag := { epoch := 0, nodes := [certW1, certW0] }

/-- The node journalled while processing `certW1` from `stateW` (round 2). -/
def nodePend2 : Node :=
  { epoch := 0, round := 2, author := 1, timestamp := 7, payload := [],
    parents := [nodeW1.metadataOf], digest := 10 }

/-- The driver state after `process envW stateW certW1`. -/
def stateAfterProcess : DagDriver :=
  { author := 1, current_round := 2, dag := dagAdd1, rb_abort_handle := some 0,
    next_handle := 1 }

/-- The trace of `process envW stateW certW1`. -/
def traceProcess : List Event :=
  [.prefetch [5] 3,
   .enterNewRound 2,
   .payloadPull 1 1000 10485760 (.ofPayloads [[5], []]),
   .setCurrentRound 2,
   .savePendingNode nodePend2,
   .spawnRb 0 nodePend2,
   .orderRuleNewNode nodeW1.metadataOf]

/-! ### Helper lemmas about the shape of emitted traces -/

/-- The first component of `broadcast_node`: handle replaced by the fresh id,
counter bumped. -/
theorem broadcast_node_fst (s : DagDriver) (n : Node) :
    (s.broadcast_node n).1 =
      { s with rb_abort_handle := some s.next_handle,
               next_handle := s.next_handle + 1 } := rfl

/-- Every event emitted by `broadcast_node` is the spawn of the fresh task or
an abort of the previous handle. -/
theorem mem_broadcast_node_snd (s : DagDriver) (n : Node) (e : Event)
    (h : e ∈ (s.broadcast_node n).2) :
    e = Event.spawnRb s.next_handle n ∨
      ∃ p, s.rb_abort_handle = some p ∧ e = Event.abortRb p := by
  unfold DagDriver.broadcast_node at h
  cases hprev : s.rb_abort_handle with
  | none => rw [hprev] at h; simp at h; exact Or.inl h
  | some p =>
    rw [hprev] at h; simp at h
    rcases h with h | h
    · exact Or.inl h
    · exact Or.inr ⟨p, rfl, h⟩

/-- Characterisation of a successful `enter_new_round`: the strong links of
`new_round - 1` existed, the payload pull succeeded, and the returned state
and trace have the fixed shape of the source: payload pull, then
`current_round` assignment, then journal save, then broadcast. -/
theorem enter_new_round_shape (env : Env) (s : DagDriver) (r : Nat)
    (s' : DagDriver) (ev : List Event)
    (h : s.enter_new_round env r = some (s', ev)) :
    ∃ strong_links payload,
      s.dag.get_strong_links_for_round (r - 1) env.verifier = some strong_links ∧
      env.pull_payload 1 1000 10485760 (payloadFilterFor env s.dag strong_links) =
        .ok payload ∧
      s' = (({ s with current_round := r }).broadcast_node
              (pendingNodeFor env s r payload strong_links)).1 ∧
      ev = .enterNewRound r ::
           .payloadPull 1 1000 10485760 (payloadFilterFor env s.dag strong_links) ::
           .setCurrentRound r ::
           .savePendingNode (pendingNodeFor env s r payload strong_links) ::
           (({ s with current_round := r }).broadcast_node
             (pendingNodeFor env s r payload strong_links)).2 := by
  unfold DagDriver.enter_new_round at h
  split at h
  · exact absurd h (by simp)
  next strong_links hsl =>
    split at h
    next e hpl => exact absurd h (by simp)
    next payload hpl =>
      simp only [Option.some.injEq, Prod.mk.injEq] at h
      exact ⟨strong_links, payload, hsl, hpl, h.1.symm, h.2.symm⟩

/-- A successful `enter_new_round` leaves the shared DAG untouched and sets
`current_round` to the new round. -/
theorem enter_new_round_state (env : Env) (s : DagDriver) (r : Nat)
    (s' : DagDriver) (ev : List Event)
    (h : s.enter_new_round env r = some (s', ev)) :
    s'.dag = s.dag ∧ s'.current_round = r := by
  obtain ⟨sl, p, -, -, hs, -⟩ := enter_new_round_shape env s r s' ev h
  subst hs; exact ⟨rfl, rfl⟩

/-! ### Claims -/

/-- C3: for every certified node whose strong-link parents are not all
present, `add_node` enqueues a fetch request for the node and fails with
`MissingParents`, returning the driver state (DAG and `current_round`)
completely unchanged. -/
theorem claim_C3_missing_parents (env : Env) (s : DagDriver) (cn : CertifiedNode)
    (h : s.dag.all_exists cn.node.parents = false) :
    s.add_node env cn =
      some (.error .missingParents, s, [.fetchRequest cn]) := by
  simp [DagDriver.add_node, h]

/-- Witness for C3: ingesting `certOrphan` (whose round-1 parent is absent
from `dagW`) fails with `MissingParents`, fires a fetch request, and leaves
the state untouched. -/
theorem claim_C3_missing_parents_witness :
    DagDriver.add_node envW stateW certOrphan =
      some (.error .missingParents, stateW, [.fetchRequest certOrphan]) :=
  claim_C3_missing_parents envW stateW certOrphan (by rfl)

/-- C8 (code bug): the payload pull is issued under the budget
`(1 s, 1000 txns, 10485760 bytes)` — second conjunct — but on pull failure
`enter_new_round` panics (`panic!("error pulling payload: ...")`, modelled as
`none`) instead of proceeding with an empty payload as the spec states —
first conjunct, evaluated at a concrete failing input. -/
theorem claim_C8_payload_pull_panics :
    DagDriver.enter_new_round envPullFail stateW 1 = none ∧
    Event.payloadPull 1 1000 10485760 (PayloadFilter.ofPayloads [[]]) ∈
      traceOfStep (DagDriver.enter_new_round envW stateW 1) := by
  exact ⟨rfl, by decide⟩

/-- C1: startup recovery.  With
`q = highestStrongLinksRound dag verifier` (i.e. `q` is the highest round
when it has quorum strong links, else its saturating predecessor), if the
journalled pending node `P` has round `q + 1` the constructor sets
`current_round = P.round` and resumes by broadcasting `P` — its trace is
exactly the spawn of `P`'s RB chain, with no journal write and no payload
pull; otherwise it starts from `current_round = q` and synchronously invokes
`enter_new_round (q + 1)`. -/
theorem claim_C1_startup_recovery (env : Env) (author : Nat) (dag : Dag)
    (pending : Option Node) :
    (∀ P, pending = some P →
      P.round = highestStrongLinksRound dag env.verifier + 1 →
      DagDriver.new env author dag pending =
        some ({ author := author, current_round := P.round, dag := dag,
                rb_abort_handle := some 0, next_handle := 1 },
              [Event.spawnRb 0 P]) ∧
      (traceOfStep (DagDriver.new env author dag pending)).filter isSavePending = [] ∧
      (traceOfStep (DagDriver.new env author dag pending)).filter isPayloadPull = []) ∧
    ((∀ P, pending = some P → P.round ≠ highestStrongLinksRound dag env.verifier + 1) →
      DagDriver.new env author dag pending =
        ({ author := author,
           current_round := highestStrongLinksRound dag env.verifier,
           dag := dag, rb_abort_handle := none,
           next_handle := 0 } : DagDriver).enter_new_round env
          (highestStrongLinksRound dag env.verifier + 1)) := by
  constructor
  · rintro P rfl hr
    have hfilter : (some P).filter
        (fun node => node.round == highestStrongLinksRound dag env.verifier + 1) =
        some P := by
      simp [Option.filter, hr]
    refine ⟨?_, ?_, ?_⟩ <;>
      simp [DagDriver.new, hfilter, DagDriver.broadcast_node, traceOfStep,
        isSavePending, isPayloadPull]
  · intro h
    cases pending with
    | none => simp [DagDriver.new, Option.filter]
    | some P =>
      have hb : (P.round == highestStrongLinksRound dag env.verifier + 1) = false := by
        simpa using h P rfl
      simp [DagDriver.new, Option.filter, hb]

/-- Witness for C1 (recovery branch): starting over `dagW` with pending node
`nodeW1` of round `q + 1 = 1`, the constructor resumes by broadcasting
`nodeW1` with no journal write and no payload pull. -/
theorem claim_C1_startup_recovery_witness :
    DagDriver.new envW 1 dagW (some nodeW1) =
      some ({ author := 1, current_round := nodeW1.round, dag := dagW,
              rb_abort_handle := some 0, next_handle := 1 },
            [Event.spawnRb 0 nodeW1]) ∧
    (traceOfStep (DagDriver.new envW 1 dagW (some nodeW1))).filter isSavePending = [] ∧
    (traceOfStep (DagDriver.new envW 1 dagW (some nodeW1))).filter isPayloadPull = [] :=
  (claim_C1_startup_recovery envW 1 dagW (some nodeW1)).1 nodeW1 rfl (by rfl)

/-- The trace of a successful `enter_new_round` contains the marker event of
its own invocation. -/
theorem enter_new_round_event_mem (env : Env) (s : DagDriver) (r : Nat)
    (s' : DagDriver) (ev : List Event)
    (h : s.enter_new_round env r = some (s', ev)) :
    Event.enterNewRound r ∈ ev := by
  obtain ⟨sl, p, -, -, -, hev⟩ := enter_new_round_shape env s r s' ev h
  subst hev; simp

/-- The only `enterNewRound` marker in a successful `enter_new_round` trace is
the round it was called with. -/
theorem enter_new_round_round_events (env : Env) (s : DagDriver) (r : Nat)
    (s' : DagDriver) (ev : List Event)
    (h : s.enter_new_round env r = some (s', ev)) (x : Nat)
    (hx : Event.enterNewRound x ∈ ev) : x = r := by
  obtain ⟨sl, p, -, -, -, hev⟩ := enter_new_round_shape env s r s' ev h
  subst hev
  simp only [List.mem_cons] at hx
  rcases hx with hx | hx | hx | hx | hx
  · exact (Event.enterNewRound.injEq _ _).mp hx
  · exact absurd hx (by simp)
  · exact absurd hx (by simp)
  · exact absurd hx (by simp)
  · rcases mem_broadcast_node_snd _ _ _ hx with h1 | ⟨p', -, h1⟩ <;> simp at h1

/-- C2 (amended): in every execution of `enter_new_round`, the trace holds
exactly one journal save and one RB spawn; `current_round` is assigned
`new_round` *before* `save_pending_node` completes (the source performs the
assignment at line 194, the save at lines 204-206), and the save completes
before `broadcast_node` spawns the RB chain — hence before any network send
carrying the node's metadata, all of which happen inside the spawned task. -/
theorem claim_C2_journal_before_broadcast (env : Env) (s : DagDriver) (r : Nat)
    (s' : DagDriver) (ev : List Event)
    (h : s.enter_new_round env r = some (s', ev)) :
    occursBeforeB isSetCurrentRound isSavePending ev = true ∧
    occursBeforeB isSavePending isSpawnRb ev = true ∧
    (ev.filter isSavePending).length = 1 ∧
    (ev.filter isSpawnRb).length = 1 := by
  obtain ⟨sl, p, -, -, -, hev⟩ := enter_new_round_shape env s r s' ev h
  subst hev
  cases hprev : s.rb_abort_handle with
  | none =>
    refine ⟨?_, ?_, ?_, ?_⟩ <;>
      simp [DagDriver.broadcast_node, hprev, occursBeforeB, idxOfEvent,
        isSetCurrentRound, isSavePending, isSpawnRb]
  | some prev =>
    refine ⟨?_, ?_, ?_, ?_⟩ <;>
      simp [DagDriver.broadcast_node, hprev, occursBeforeB, idxOfEvent,
        isSetCurrentRound, isSavePending, isSpawnRb]

/-- Counterexample to C2 as stated: in the concrete execution
`enter_new_round envW stateW 1`, the `current_round` assignment occurs
strictly before the journal save, and the save does *not* occur before the
assignment — `save_pending_node` therefore does not complete "before
`current_round` is assigned `new_round`". -/
theorem claim_C2_counterexample :
    occursBeforeB isSetCurrentRound isSavePending
      (traceOfStep (DagDriver.enter_new_round envW stateW 1)) = true ∧
    occursBeforeB isSavePending isSetCurrentRound
      (traceOfStep (DagDriver.enter_new_round envW stateW 1)) = false :=
  ⟨rfl, rfl⟩

/-- Witness for the amended C2, at the concrete execution
`enter_new_round envW stateW 1`. -/
theorem claim_C2_journal_before_broadcast_witness :
    occursBeforeB isSetCurrentRound isSavePending traceEnter1 = true ∧
    occursBeforeB isSavePending isSpawnRb traceEnter1 = true ∧
    (traceEnter1.filter isSavePending).length = 1 ∧
    (traceEnter1.filter isSpawnRb).length = 1 :=
  claim_C2_journal_before_broadcast envW stateW 1 stateAfterEnter1 traceEnter1 (by rfl)

/-- C10: every `enter_new_round` invocation reachable from `add_node` or the
constructor carries a round of at least 1 (both call sites pass
`highest_strong_links_round + 1`), so the unguarded `new_round - 1` that
fetches the strong links never underflows. -/
theorem claim_C10_new_round_positive :
    (∀ (env : Env) (s : DagDriver) (cn : CertifiedNode) (r : Nat),
      Event.enterNewRound r ∈ traceOfCall (s.add_node env cn) → 1 ≤ r) ∧
    (∀ (env : Env) (author : Nat) (dag : Dag) (pending : Option Node) (r : Nat),
      Event.enterNewRound r ∈ traceOfStep (DagDriver.new env author dag pending) →
        1 ≤ r) := by
  constructor
  · intro env s cn r hr
    unfold DagDriver.add_node at hr
    split at hr
    · split at hr
      · simp [traceOfCall] at hr
      next d2 hadd =>
        split at hr
        · split at hr
          · simp [traceOfCall] at hr
          next s2 ev2 henter =>
            simp only [traceOfCall, List.mem_cons] at hr
            rcases hr with hr | hr
            · exact absurd hr (by simp)
            · have := enter_new_round_round_events _ _ _ _ _ henter r hr
              omega
        · simp [traceOfCall] at hr
    · simp [traceOfCall] at hr
  · intro env author dag pending r hr
    unfold DagDriver.new at hr
    split at hr
    next node hfl =>
      simp [traceOfStep, DagDriver.broadcast_node] at hr
    next hfl =>
      cases henter : DagDriver.enter_new_round env
          ⟨author, highestStrongLinksRound dag env.verifier, dag, none, 0⟩
          (highestStrongLinksRound dag env.verifier + 1) with
      | none => rw [henter] at hr; simp [traceOfStep] at hr
      | some pr =>
        obtain ⟨s2, ev2⟩ := pr
        rw [henter] at hr
        simp only [traceOfStep] at hr
        have := enter_new_round_round_events _ _ _ _ _ henter r hr
        omega

/-- Witness for C10: the round-advancement event emitted while ingesting
`certW1` from `stateW` carries round `2 ≥ 1`. -/
theorem claim_C10_new_round_positive_witness : 1 ≤ 2 :=
  claim_C10_new_round_positive.1 envW stateW certW1 2 (by decide)

/-- C4: after a successful insertion, `add_node` recomputes
`q = highestStrongLinksRound` of the updated DAG and invokes
`enter_new_round (q + 1)` if and only if `current_round ≤ q`; when
`current_round > q` it returns with only the prefetch effect and the DAG
update, entering no new round. -/
theorem claim_C4_conditional_round_entry (env : Env) (s : DagDriver)
    (cn : CertifiedNode) (d2 : Dag)
    (h1 : s.dag.all_exists cn.node.parents = true)
    (h2 : s.dag.addNode cn = .ok d2)
    (h3 : (s.add_node env cn).isSome = true) :
    (s.current_round ≤ highestStrongLinksRound d2 env.verifier ↔
      Event.enterNewRound (highestStrongLinksRound d2 env.verifier + 1) ∈
        traceOfCall (s.add_node env cn)) ∧
    (highestStrongLinksRound d2 env.verifier < s.current_round →
      s.add_node env cn =
        some (.ok (), { s with dag := d2 },
          [.prefetch cn.node.payload cn.node.timestamp])) := by
  by_cases hle : s.current_round ≤ highestStrongLinksRound d2 env.verifier
  · cases henter : ({ s with dag := d2 }).enter_new_round env
        (highestStrongLinksRound d2 env.verifier + 1) with
    | none =>
      have hnone : s.add_node env cn = none := by
        simp [DagDriver.add_node, h1, h2, hle, henter]
      rw [hnone] at h3
      exact absurd h3 (by simp)
    | some pr =>
      obtain ⟨s2, ev2⟩ := pr
      have hadd : s.add_node env cn =
          some (.ok (), s2, .prefetch cn.node.payload cn.node.timestamp :: ev2) := by
        simp [DagDriver.add_node, h1, h2, hle, henter]
      refine ⟨⟨fun _ => ?_, fun _ => hle⟩, fun hlt => absurd hle (not_le.mpr hlt)⟩
      rw [hadd]
      simp only [traceOfCall, List.mem_cons]
      exact Or.inr (enter_new_round_event_mem _ _ _ _ _ henter)
  · have hadd : s.add_node env cn =
        some (.ok (), { s with dag := d2 },
          [.prefetch cn.node.payload cn.node.timestamp]) := by
      simp [DagDriver.add_node, h1, h2, hle]
    refine ⟨⟨fun hc => absurd hc hle, fun hm => ?_⟩, fun _ => hadd⟩
    rw [hadd] at hm
    exact absurd hm (by simp [traceOfCall])

/-- Witness for C4 at a concrete input: ingesting `certW1` from `stateW`
(current round 0, recomputed `q = 1`) does enter round 2. -/
theorem claim_C4_conditional_round_entry_witness :
    stateW.current_round ≤ highestStrongLinksRound dagAdd1 envW.verifier ↔
      Event.enterNewRound (highestStrongLinksRound dagAdd1 envW.verifier + 1) ∈
        traceOfCall (stateW.add_node envW certW1) :=
  (claim_C4_conditional_round_entry envW stateW certW1 dagAdd1 (by rfl) (by rfl)
    (by rfl)).1

/-- Splitting spawn events over trace concatenation. -/
theorem spawnedIn_append (tr1 tr2 : List Event) (k : Nat) :
    spawnedIn (tr1 ++ tr2) k ↔ spawnedIn tr1 k ∨ spawnedIn tr2 k := by
  simp [spawnedIn, List.mem_append, exists_or]

/-- Splitting abort events over trace concatenation. -/
theorem abortedIn_append (tr1 tr2 : List Event) (k : Nat) :
    abortedIn (tr1 ++ tr2) k ↔ abortedIn tr1 k ∨ abortedIn tr2 k := by
  simp [abortedIn, List.mem_append]

/-- C5: `broadcast_node` spawns the two-phase RB chain as one abortable task,
replaces `rb_abort_handle` with the fresh handle, and aborts the previous
handle when one existed; the handle bookkeeping invariant is preserved, and
afterwards at most one RB task is live (spawned and unaborted) — the one in
`rb_abort_handle`. -/
theorem claim_C5_at_most_one_inflight (s : DagDriver) (tr : List Event) (n : Node)
    (h : HandleInv s tr) :
    HandleInv (s.broadcast_node n).1 (tr ++ (s.broadcast_node n).2) ∧
    (s.broadcast_node n).1.rb_abort_handle = some s.next_handle ∧
    Event.spawnRb s.next_handle n ∈ (s.broadcast_node n).2 ∧
    (∀ p, s.rb_abort_handle = some p → Event.abortRb p ∈ (s.broadcast_node n).2) ∧
    (∀ i j, liveHandle (tr ++ (s.broadcast_node n).2) i →
      liveHandle (tr ++ (s.broadcast_node n).2) j → i = j) := by
  obtain ⟨hlive, hspawn, habort⟩ := h
  cases hprev : s.rb_abort_handle with
  | none =>
    have hev : (s.broadcast_node n).2 = [Event.spawnRb s.next_handle n] := by
      simp [DagDriver.broadcast_node, hprev]
    have hspA : ∀ k, spawnedIn (tr ++ (s.broadcast_node n).2) k ↔
        spawnedIn tr k ∨ k = s.next_handle := by
      intro k; rw [hev, spawnedIn_append]; simp [spawnedIn]
    have habA : ∀ k, abortedIn (tr ++ (s.broadcast_node n).2) k ↔ abortedIn tr k := by
      intro k; rw [hev, abortedIn_append]; simp [abortedIn]
    have hiff : ∀ k, liveHandle (tr ++ (s.broadcast_node n).2) k ↔
        s.next_handle = k := by
      intro k
      simp only [liveHandle, hspA, habA]
      constructor
      · rintro ⟨hsp | rfl, hab⟩
        · have := (hlive k).mp ⟨hsp, hab⟩
          rw [hprev] at this
          exact absurd this (by simp)
        · rfl
      · rintro rfl
        exact ⟨Or.inr rfl, fun hab => absurd (habort _ hab) (lt_irrefl _)⟩
    refine ⟨⟨?_, ?_, ?_⟩, rfl, ?_, ?_, ?_⟩
    · intro k
      rw [hiff k]
      simp [DagDriver.broadcast_node]
    · intro k hk
      rw [hspA k] at hk
      have hb : (s.broadcast_node n).1.next_handle = s.next_handle + 1 := rfl
      rw [hb]
      rcases hk with hk | rfl
      · exact Nat.lt_succ_of_lt (hspawn k hk)
      · exact Nat.lt_succ_self _
    · intro k hk
      rw [habA k] at hk
      have hb : (s.broadcast_node n).1.next_handle = s.next_handle + 1 := rfl
      rw [hb]
      exact Nat.lt_succ_of_lt (habort k hk)
    · rw [hev]; simp
    · intro q hq
      exact absurd hq (by simp)
    · intro i j hi hj
      rw [hiff i] at hi
      rw [hiff j] at hj
      omega
  | some p =>
    have hplt : p < s.next_handle := hspawn p ((hlive p).mpr hprev).1
    have hev : (s.broadcast_node n).2 =
        [Event.spawnRb s.next_handle n, Event.abortRb p] := by
      simp [DagDriver.broadcast_node, hprev]
    have hspA : ∀ k, spawnedIn (tr ++ (s.broadcast_node n).2) k ↔
        spawnedIn tr k ∨ k = s.next_handle := by
      intro k; rw [hev, spawnedIn_append]; simp [spawnedIn]
    have habA : ∀ k, abortedIn (tr ++ (s.broadcast_node n).2) k ↔
        abortedIn tr k ∨ k = p := by
      intro k; rw [hev, abortedIn_append]; simp [abortedIn]
    have hiff : ∀ k, liveHandle (tr ++ (s.broadcast_node n).2) k ↔
        s.next_handle = k := by
      intro k
      simp only [liveHandle, hspA, habA]
      constructor
      · rintro ⟨hsp | rfl, hab⟩
        · have := (hlive k).mp ⟨hsp, fun h2 => hab (Or.inl h2)⟩
          rw [hprev] at this
          have hkp : k = p := by
            exact ((Option.some.injEq _ _).mp this.symm)
          exact absurd (Or.inr hkp) hab
        · rfl
      · rintro rfl
        refine ⟨Or.inr rfl, ?_⟩
        rintro (hab | heq)
        · exact absurd (habort _ hab) (lt_irrefl _)
        · omega
    refine ⟨⟨?_, ?_, ?_⟩, rfl, ?_, ?_, ?_⟩
    · intro k
      rw [hiff k]
      simp [DagDriver.broadcast_node]
    · intro k hk
      rw [hspA k] at hk
      have hb : (s.broadcast_node n).1.next_handle = s.next_handle + 1 := rfl
      rw [hb]
      rcases hk with hk | rfl
      · exact Nat.lt_succ_of_lt (hspawn k hk)
      · exact Nat.lt_succ_self _
    · intro k hk
      rw [habA k] at hk
      have hb : (s.broadcast_node n).1.next_handle = s.next_handle + 1 := rfl
      rw [hb]
      rcases hk with hk | rfl
      · exact Nat.lt_succ_of_lt (habort k hk)
      · exact Nat.lt_succ_of_lt hplt
    · rw [hev]; simp
    · intro q hq
      have : q = p := by exact ((Option.some.injEq _ _).mp hq.symm)
      subst this
      rw [hev]; simp
    · intro i j hi hj
      rw [hiff i] at hi
      rw [hiff j] at hj
      omega

/-- Witness for C5: broadcasting `nodeW1` from the idle state `stateW`
installs the fresh handle `0` as the only live RB handle. -/
theorem claim_C5_at_most_one_inflight_witness :
    (stateW.broadcast_node nodeW1).1.rb_abort_handle = some stateW.next_handle :=
  (claim_C5_at_most_one_inflight stateW [] nodeW1
    (by simp [HandleInv, liveHandle, spawnedIn, abortedIn, stateW])).2.1

/-- Soundness of the spec-modelled traversal: every node produced by
`reachableGo` has round at least the lower bound. -/
theorem reachableGo_round_bound (d : Dag) (lb : Nat) :
    ∀ (fuel : Nat) (frontier visited : List NodeMetadata) (c : CertifiedNode),
      c ∈ d.reachableGo lb fuel frontier visited → lb ≤ c.node.round := by
  intro fuel
  induction fuel with
  | zero => intro frontier visited c hc; simp [Dag.reachableGo] at hc
  | succ fuel ih =>
    intro frontier visited c hc
    cases frontier with
    | nil => simp [Dag.reachableGo] at hc
    | cons m rest =>
      simp only [Dag.reachableGo] at hc
      split at hc
      · exact ih _ _ _ hc
      · split at hc
        · exact ih _ _ _ hc
        next c' hfind =>
          split at hc
          next hle =>
            rcases List.mem_cons.mp hc with rfl | hc
            · exact hle
            · exact ih _ _ _ hc
          · exact ih _ _ _ hc

/-- No node below the lower round bound is produced by `reachable`. -/
theorem reachable_round_bound (d : Dag) (roots : List NodeMetadata) (lb : Nat)
    (c : CertifiedNode) (hc : c ∈ d.reachable roots lb) : lb ≤ c.node.round :=
  reachableGo_round_bound d lb _ _ _ c hc

/-- C7: the payload filter of `enter_new_round` is `PayloadFilter::Empty`
exactly when the strong-link set is empty; otherwise it is built from the
payloads of the nodes reachable from the strong links down to
`highest_committed_anchor_round - DAG_WINDOW` (saturating), and no node below
that bound contributes; the filter so built is what the payload pull is
issued with. -/
theorem claim_C7_payload_filter (env : Env) (s : DagDriver) (new_round : Nat)
    (strong_links : List NodeMetadata)
    (h : s.dag.get_strong_links_for_round (new_round - 1) env.verifier =
      some strong_links)
    (h2 : (s.enter_new_round env new_round).isSome = true) :
    (payloadFilterFor env s.dag strong_links = PayloadFilter.Empty ↔
      strong_links = []) ∧
    Event.payloadPull 1 1000 10485760 (payloadFilterFor env s.dag strong_links) ∈
      traceOfStep (s.enter_new_round env new_round) ∧
    (∀ c ∈ s.dag.reachable strong_links (env.anchor_round - env.dag_window),
      env.anchor_round - env.dag_window ≤ c.node.round) := by
  refine ⟨?_, ?_, fun c hc => reachable_round_bound _ _ _ c hc⟩
  · cases strong_links with
    | nil => simp [payloadFilterFor]
    | cons a l => simp [payloadFilterFor]
  · cases hres : s.enter_new_round env new_round with
    | none => rw [hres] at h2; exact absurd h2 (by simp)
    | some pr =>
      obtain ⟨s2, ev⟩ := pr
      obtain ⟨sl, p, hsl, hpl, hst, hev⟩ :=
        enter_new_round_shape env s new_round s2 ev hres
      have hsleq : sl = strong_links := by
        rw [h] at hsl
        exact ((Option.some.injEq _ _).mp hsl).symm
      subst hsleq
      simp only [traceOfStep]
      rw [hev]
      simp

/-- Witness for C7: entering round 1 over `dagW`, the pull is issued with the
filter built from the single strong link (the genesis-like node). -/
theorem claim_C7_payload_filter_witness :
    Event.payloadPull 1 1000 10485760
      (payloadFilterFor envW stateW.dag [nodeW0.metadataOf]) ∈
      traceOfStep (stateW.enter_new_round envW 1) :=
  (claim_C7_payload_filter envW stateW 1 [nodeW0.metadataOf] (by rfl) (by rfl)).2.1

/-- Folding the journal slot over a concatenated trace. -/
theorem runJournal_append (init : Option Node) (tr1 tr2 : List Event) :
    runJournal init (tr1 ++ tr2) = runJournal (runJournal init tr1) tr2 := by
  simp [runJournal, List.foldl_append]

/-- An empty slot stays empty across a trace without journal writes. -/
theorem runJournal_none_of_no_save (tr : List Event)
    (h : ∀ m, Event.savePendingNode m ∉ tr) : runJournal none tr = none := by
  induction tr with
  | nil => rfl
  | cons e tr ih =>
    have h' : ∀ m, Event.savePendingNode m ∉ tr :=
      fun m hm => h m (List.mem_cons_of_mem _ hm)
    have hstep : journalStep none e = none := by
      cases e with
      | savePendingNode m => exact absurd (List.mem_cons_self _ _) (h m)
      | rbOuterComplete m => simp [journalStep]
      | fetchRequest cn => rfl
      | prefetch p ts => rfl
      | enterNewRound r => rfl
      | payloadPull a b c f => rfl
      | setCurrentRound r => rfl
      | spawnRb i n => rfl
      | abortRb i => rfl
      | orderRuleNewNode m => rfl
    have hc : runJournal none (e :: tr) = runJournal (journalStep none e) tr := rfl
    rw [hc, hstep]
    exact ih h'

/-- Without journal writes, a filled slot either survives or is cleared. -/
theorem runJournal_no_save_cases (n : Node) (tr : List Event)
    (h : ∀ m, Event.savePendingNode m ∉ tr) :
    runJournal (some n) tr = some n ∨ runJournal (some n) tr = none := by
  induction tr with
  | nil => exact Or.inl rfl
  | cons e tr ih =>
    have h' : ∀ m, Event.savePendingNode m ∉ tr :=
      fun m hm => h m (List.mem_cons_of_mem _ hm)
    have hc : runJournal (some n) (e :: tr) =
        runJournal (journalStep (some n) e) tr := rfl
    have hstep : journalStep (some n) e = some n ∨ journalStep (some n) e = none := by
      cases e with
      | savePendingNode m => exact absurd (List.mem_cons_self _ _) (h m)
      | rbOuterComplete m =>
        simp only [journalStep]
        split
        · exact Or.inr rfl
        · exact Or.inl rfl
      | fetchRequest cn => exact Or.inl rfl
      | prefetch p ts => exact Or.inl rfl
      | enterNewRound r => exact Or.inl rfl
      | payloadPull a b c f => exact Or.inl rfl
      | setCurrentRound r => exact Or.inl rfl
      | spawnRb i nd => exact Or.inl rfl
      | abortRb i => exact Or.inl rfl
      | orderRuleNewNode m => exact Or.inl rfl
    rw [hc]
    rcases hstep with hs | hs
    · rw [hs]; exact ih h'
    · rw [hs]; exact Or.inr (runJournal_none_of_no_save tr h')

/-- Without journal writes and without the completion of `n`'s outer phase,
a slot holding `n` survives unchanged. -/
theorem runJournal_quiet (n : Node) (tr : List Event)
    (h1 : ∀ m, Event.savePendingNode m ∉ tr)
    (h2 : Event.rbOuterComplete n ∉ tr) :
    runJournal (some n) tr = some n := by
  induction tr with
  | nil => rfl
  | cons e tr ih =>
    have h1' : ∀ m, Event.savePendingNode m ∉ tr :=
      fun m hm => h1 m (List.mem_cons_of_mem _ hm)
    have h2' : Event.rbOuterComplete n ∉ tr :=
      fun hm => h2 (List.mem_cons_of_mem _ hm)
    have hc : runJournal (some n) (e :: tr) =
        runJournal (journalStep (some n) e) tr := rfl
    have hstep : journalStep (some n) e = some n := by
      cases e with
      | savePendingNode m => exact absurd (List.mem_cons_self _ _) (h1 m)
      | rbOuterComplete m =>
        have hmn : (some n == some m) = false := by
          apply beq_eq_false_iff_ne.mpr
          intro he
          apply h2
          have : n = m := (Option.some.injEq _ _).mp he
          rw [this]
          exact List.mem_cons_self _ _
        simp [journalStep, hmn]
      | fetchRequest cn => rfl
      | prefetch p ts => rfl
      | enterNewRound r => rfl
      | payloadPull a b c f => rfl
      | setCurrentRound r => rfl
      | spawnRb i nd => rfl
      | abortRb i => rfl
      | orderRuleNewNode m => rfl
    rw [hc, hstep]
    exact ih h1' h2'

/-- C9: the pending-node journal slot.  (1) Every successful
`enter_new_round` writes a pending node; (2) the slot written for `n` is
cleared once `n`'s RB outer (signature-collection) phase completes, whatever
events other than journal writes happen in between; (3) if the slot is first
overwritten by the next round's pending node `n'`, it is not cleared by the
old node's outer-phase completion — the slot still holds `n'`.  The clearing
of the slot on outer-phase completion is modelled from the spec (section 3
lifecycle); it is not part of `dag_driver.rs`. -/
theorem claim_C9_pending_slot_lifecycle :
    (∀ (env : Env) (s : DagDriver) (r : Nat) (s' : DagDriver) (ev : List Event),
      s.enter_new_round env r = some (s', ev) →
      ∃ n, Event.savePendingNode n ∈ ev) ∧
    (∀ (init : Option Node) (tr1 tr2 : List Event) (n : Node),
      (∀ m, Event.savePendingNode m ∉ tr2) →
      runJournal init
        (tr1 ++ Event.savePendingNode n :: (tr2 ++ [Event.rbOuterComplete n])) =
        none) ∧
    (∀ (init : Option Node) (tr1 tr2 tr3 : List Event) (n n' : Node),
      n' ≠ n →
      (∀ m, Event.savePendingNode m ∉ tr3) →
      Event.rbOuterComplete n' ∉ tr3 →
      runJournal init
        (tr1 ++ Event.savePendingNode n ::
          (tr2 ++ Event.savePendingNode n' ::
            (tr3 ++ [Event.rbOuterComplete n]))) = some n') := by
  refine ⟨?_, ?_, ?_⟩
  · intro env s r s' ev h
    obtain ⟨sl, p, -, -, -, hev⟩ := enter_new_round_shape env s r s' ev h
    subst hev
    exact ⟨pendingNodeFor env s r p sl, by simp⟩
  · intro init tr1 tr2 n hq
    rw [runJournal_append]
    have hc : runJournal (runJournal init tr1)
        (Event.savePendingNode n :: (tr2 ++ [Event.rbOuterComplete n])) =
        runJournal (some n) (tr2 ++ [Event.rbOuterComplete n]) := rfl
    rw [hc, runJournal_append]
    rcases runJournal_no_save_cases n tr2 hq with hs | hs <;> rw [hs]
    · simp [runJournal, journalStep]
    · simp [runJournal, journalStep]
  · intro init tr1 tr2 tr3 n n' hne hq hnc
    rw [runJournal_append]
    have hc : runJournal (runJournal init tr1)
        (Event.savePendingNode n ::
          (tr2 ++ Event.savePendingNode n' :: (tr3 ++ [Event.rbOuterComplete n]))) =
        runJournal (some n)
          (tr2 ++ Event.savePendingNode n' :: (tr3 ++ [Event.rbOuterComplete n])) := rfl
    rw [hc, runJournal_append]
    have hc2 : runJournal (runJournal (some n) tr2)
        (Event.savePendingNode n' :: (tr3 ++ [Event.rbOuterComplete n])) =
        runJournal (some n') (tr3 ++ [Event.rbOuterComplete n]) := rfl
    rw [hc2, runJournal_append, runJournal_quiet n' tr3 hq hnc]
    have hmn : (some n' == some n) = false := by
      apply beq_eq_false_iff_ne.mpr
      simpa using hne
    simp [runJournal, journalStep, hmn]

/-- Witness for C9 (clearing branch): a slot written for `nodePend1` and then
seeing that node's outer-phase completion ends empty. -/
theorem claim_C9_pending_slot_lifecycle_witness :
    runJournal none
      ([] ++ Event.savePendingNode nodePend1 ::
        ([] ++ [Event.rbOuterComplete nodePend1])) = none :=
  claim_C9_pending_slot_lifecycle.2.1 none [] [] nodePend1 (by simp)

/-- A successful store insertion makes the inserted node's metadata present. -/
theorem Dag.addNode_ok_existsMeta (d : Dag) (cn : CertifiedNode) (d2 : Dag)
    (h : d.addNode cn = .ok d2) : d2.existsMeta cn.node.metadataOf = true := by
  unfold Dag.addNode at h
  split at h
  · exact absurd h (by simp)
  · split at h
    · exact absurd h (by simp)
    · split at h
      · exact absurd h (by simp)
      · have hd : d2 = { d with nodes := cn :: d.nodes } := by
          injection h with h2
          exact h2.symm
        subst hd
        simp [Dag.existsMeta, Dag.findByMeta, List.find?]

/-- `enter_new_round` never notifies the order rule. -/
theorem enter_new_round_no_orderRule (env : Env) (s : DagDriver) (r : Nat)
    (s' : DagDriver) (ev : List Event)
    (h : s.enter_new_round env r = some (s', ev)) (m : NodeMetadata) :
    Event.orderRuleNewNode m ∉ ev := by
  obtain ⟨sl, p, -, -, -, hev⟩ := enter_new_round_shape env s r s' ev h
  subst hev
  intro hm
  simp only [List.mem_cons] at hm
  rcases hm with hm | hm | hm | hm | hm
  · exact absurd hm (by simp)
  · exact absurd hm (by simp)
  · exact absurd hm (by simp)
  · exact absurd hm (by simp)
  · rcases mem_broadcast_node_snd _ _ _ hm with h1 | ⟨p', -, h1⟩ <;> simp at h1

/-- `add_node` never notifies the order rule; only the RPC handler does. -/
theorem add_node_no_orderRule (env : Env) (s : DagDriver) (cn : CertifiedNode)
    (res : Except DriverError Unit) (s2 : DagDriver) (ev : List Event)
    (h : s.add_node env cn = some (res, s2, ev)) (m : NodeMetadata) :
    Event.orderRuleNewNode m ∉ ev := by
  unfold DagDriver.add_node at h
  split at h
  · split at h
    · simp only [Option.some.injEq, Prod.mk.injEq] at h
      obtain ⟨-, -, hev⟩ := h
      rw [← hev]
      simp
    next d2 hok =>
      split at h
      · split at h
        · exact absurd h (by simp)
        next s3 ev2 henter =>
          simp only [Option.some.injEq, Prod.mk.injEq] at h
          obtain ⟨-, -, hev⟩ := h
          rw [← hev]
          intro hm
          rcases List.mem_cons.mp hm with hm | hm
          · exact absurd hm (by simp)
          · exact enter_new_round_no_orderRule _ _ _ _ _ henter m hm
      · simp only [Option.some.injEq, Prod.mk.injEq] at h
        obtain ⟨-, -, hev⟩ := h
        rw [← hev]
        simp
  · simp only [Option.some.injEq, Prod.mk.injEq] at h
    obtain ⟨-, -, hev⟩ := h
    rw [← hev]
    simp

/-- A successful `add_node` leaves the DAG exactly at the store insertion's
result (`enter_new_round` does not touch it further). -/
theorem add_node_ok_dag (env : Env) (s : DagDriver) (cn : CertifiedNode)
    (u : Unit) (s2 : DagDriver) (ev : List Event)
    (h : s.add_node env cn = some (.ok u, s2, ev)) :
    ∃ d2, s.dag.addNode cn = .ok d2 ∧ s2.dag = d2 := by
  unfold DagDriver.add_node at h
  split at h
  · split at h
    · exact absurd h (by simp)
    next d2 hok =>
      split at h
      · split at h
        · exact absurd h (by simp)
        next s3 ev2 henter =>
          refine ⟨d2, hok, ?_⟩
          simp only [Option.some.injEq, Prod.mk.injEq] at h
          obtain ⟨-, hs, -⟩ := h
          rw [← hs]
          exact (enter_new_round_state env _ _ _ _ henter).1
      · refine ⟨d2, hok, ?_⟩
        simp only [Option.some.injEq, Prod.mk.injEq] at h
        obtain ⟨-, hs, -⟩ := h
        rw [← hs]
  · exact absurd h (by simp)

/-- C6: ingesting the same certified node twice through the RPC handler is
idempotent.  If the node is new and the first `process` returns an ack, then
the ack carries the node's epoch, the second `process` returns the same ack
with an unchanged state and an empty trace (so the DAG is mutated at most
once), and the order rule is notified exactly once for that node across both
calls. -/
theorem claim_C6_idempotent_ingest (env : Env) (s : DagDriver) (cn : CertifiedNode)
    (ack : CertifiedAck) (s' : DagDriver) (ev : List Event)
    (h0 : s.dag.existsMeta cn.node.metadataOf = false)
    (h1 : s.process env cn = some (.ok ack, s', ev)) :
    ack = ⟨cn.node.epoch⟩ ∧
    s'.process env cn = some (.ok ack, s', []) ∧
    ev.count (Event.orderRuleNewNode cn.node.metadataOf) = 1 := by
  unfold DagDriver.process at h1
  rw [if_neg (by simp [h0])] at h1
  cases hadd : s.add_node env cn with
  | none => rw [hadd] at h1; exact absurd h1 (by simp)
  | some pr =>
    obtain ⟨res, s2, ev0⟩ := pr
    rw [hadd] at h1
    cases res with
    | error e => exact absurd h1 (by simp)
    | ok u =>
      simp only [Option.some.injEq, Prod.mk.injEq, Except.ok.injEq] at h1
      obtain ⟨hack, hs, hev⟩ := h1
      obtain ⟨d2, hok, hdag⟩ := add_node_ok_dag env s cn u s2 ev0 hadd
      have hex : s'.dag.existsMeta cn.node.metadataOf = true := by
        rw [← hs, hdag]
        exact Dag.addNode_ok_existsMeta s.dag cn d2 hok
      refine ⟨hack.symm, ?_, ?_⟩
      · unfold DagDriver.process
        rw [if_pos (by simp [hex])]
        rw [hack]
      · rw [← hev]
        rw [List.count_append]
        have hz : ev0.count (Event.orderRuleNewNode cn.node.metadataOf) = 0 := by
          rw [List.count_eq_zero]
          exact add_node_no_orderRule env s cn (.ok u) s2 ev0 hadd cn.node.metadataOf
        rw [hz]
        simp

/-- Witness for C6: after ingesting `certW1` once from `stateW`, a second
ingest returns the same ack and leaves everything unchanged. -/
theorem claim_C6_idempotent_ingest_witness :
    stateAfterProcess.process envW certW1 =
      some (.ok ⟨0⟩, stateAfterProcess, []) :=
  (claim_C6_idempotent_ingest envW stateW certW1 ⟨0⟩ stateAfterProcess
    traceProcess (by rfl) (by rfl)).2.1
